import Mathlib

/-!
Shallow embedding of the ADLv1 storage-backend adapter
(`internal/backend_adlv1.go`) and proofs about its algorithms: the path
mapper, the error classifier, the listing engine, the multipart emulator
and the deletion orderer.  Remote calls are modelled by explicit oracles
(functions from call descriptors to responses); every adapter function
additionally returns the trace of remote calls it issued, so that claims
about which calls are made (offsets, probes, recursion) are statable.
-/

namespace ADL

/-- 2^64, the modulus of Go `uint64` arithmetic. -/
def U64 : Nat := 18446744073709551616

/-- 2^32, the modulus of Go `uint32` arithmetic. -/
def U32 : Nat := 4294967296

/-- Go `uint64` addition (wraps modulo 2^64). -/
def u64add (a b : Nat) : Nat := (a + b) % U64

/-- Go `uint64` subtraction (wraps modulo 2^64). -/
def u64sub (a b : Nat) : Nat := (a + (U64 - b % U64)) % U64

/-- Go `uint32` subtraction (wraps modulo 2^32); models `*maxKeys -= uint32(n)`. -/
def u32sub (a b : Nat) : Nat := (a + (U32 - b % U32)) % U32

/-- Go conversion `int64(x)` of a `uint64` value: reinterpret modulo 2^64
into the signed range. -/
def toInt64 (n : Nat) : Int :=
  if n % U64 < 2 ^ 63 then ((n % U64 : Nat) : Int)
  else ((n % U64 : Nat) : Int) - (U64 : Int)

/-- The decoded structured remote error body (`ADLv1Err.RemoteException`). -/
structure RemoteException where
  exception : String
  message : String
  javaClassName : String
deriving DecidableEq, Repr

/-- An HTTP response as far as `mapADLv1Error` inspects it: the status
code, and the result of decoding the body as a structured remote error
(`none` models an unparsable body). -/
structure HTTPResponse where
  statusCode : Nat
  body : Option RemoteException
deriving DecidableEq, Repr

/-- The error taxonomy of the adapter: POSIX-style sentinel errors
(`syscall.EAGAIN`, `fuse.EINVAL`, `fuse.ENOENT`, `fuse.EEXIST`,
`syscall.ENOTSUP`) plus the typed structured error `ADLv1Err` carrying the
decoded exception and the originating response.  `fuelExhausted` is a
model artifact marking recursion-depth exhaustion of the listing engine's
fuel parameter; it corresponds to no Go value. -/
inductive AdlError where
  | eagain
  | einval
  | enoent
  | eexist
  | enotsup
  | fuelExhausted
  | adlv1Err (re : RemoteException) (resp : HTTPResponse)
deriving DecidableEq, Repr

/-- Modelled from the spec: `mapHttpError`, the generic
HTTP-status-to-POSIX-style-error table, lives outside this source file
(the spec: statuses with a specific mapping get it, 404 meaning
not-found; statuses with no specific mapping fall back to a generic
invalid-argument classification in `mapADLv1Error`).  Only the 404
mapping is load-bearing for the claims. -/
def mapHttpError (status : Nat) : Option AdlError :=
  if status = 404 then some .enoent else none

/-- A raw remote call outcome: the response (`none` models a nil
`*http.Response`) and whether a transport error occurred. -/
structure RemoteResp where
  resp : Option HTTPResponse
  err : Bool
deriving DecidableEq, Repr

/-- `mapADLv1Error(resp, err, rawError)`: the error classifier.  No
response: a transport error classifies as retryable (`EAGAIN`), otherwise
the (nil) error is propagated.  A failure status with `rawError` decodes
the structured body (decode failure classifies as `EAGAIN`); without
`rawError` the status goes through the generic table with an `EINVAL`
fallback. -/
def mapADLv1Error (resp : Option HTTPResponse) (err : Bool) (rawError : Bool) :
    Option AdlError :=
  match resp with
  | none => if err then some .eagain else none
  | some r =>
    if r.statusCode < 200 ∨ 300 ≤ r.statusCode then
      if rawError then
        match r.body with
        | some re => some (.adlv1Err re r)
        | none => some .eagain
      else
        match mapHttpError r.statusCode with
        | some e => some e
        | none => some .einval
    else none

/-- `strings.TrimLeft(s, "/")`: drop all leading `/` characters. -/
def trimLeftSlash (s : String) : String := ⟨s.data.dropWhile (· == '/')⟩

/-- `strings.TrimRight(s, "/")`: drop all trailing `/` characters. -/
def trimRightSlash (s : String) : String :=
  ⟨(s.data.reverse.dropWhile (· == '/')).reverse⟩

/-- `strings.HasSuffix(s, "/")`: the last character is the delimiter. -/
def hasSuffixSlash (s : String) : Bool :=
  match s.data.getLast? with
  | some c => c == '/'
  | none => false

/-- `(*ADLv1).path`: strip leading delimiters from the logical key and
join it with the bucket-like root prefix; an empty stripped key maps to
the root prefix unchanged. -/
def pathMap (bucket key : String) : String :=
  let key := trimLeftSlash key
  if bucket ≠ "" then
    if key ≠ "" then bucket ++ "/" ++ key else bucket
  else key

/-- Modelled from the spec: the helper `nilStr` (defined outside this
source file) reads an optional string, yielding `""` for nil. -/
def nilStr (s : Option String) : String :=
  match s with
  | none => ""
  | some x => x

/-! ## Multipart emulator -/

/-- The `syncFlag` argument of a remote `Append` call: `adl.DATA` or
`adl.CLOSE`. -/
inductive SyncFlag where
  | data
  | close
deriving DecidableEq, Repr

/-- The body of a remote `Append` call: the caller's part stream with its
declared size, or the literal empty (zero-length) reader. -/
inductive AppendBody where
  | stream (declaredSize : Nat)
  | empty
deriving DecidableEq, Repr

/-- A remote `Append` call as issued by the multipart emulator: target
remote path, body, offset argument (`none` models a nil offset pointer,
as in Abort), sync flag, and the lease token (passed as both the lease id
and the fence token in the source). -/
structure AppendCall where
  path : String
  body : AppendBody
  offset : Option Int
  flag : SyncFlag
  lease : String
deriving DecidableEq, Repr

/-- The multipart commit handle: remote path (`Key`), lease token
(`UploadId`) and the backend-private cumulative size
(`ADLv1MultipartBlobCommitInput.Size`).  The Go code reaches the size
through an untyped `backendData` field and panics on a type mismatch;
the handle is typed here, so that contract violation is unrepresentable. -/
structure MPHandle where
  key : String
  uploadId : String
  size : Nat
deriving DecidableEq, Repr

/-- `(*ADLv1).MultipartBlobBegin`: create the object with a fresh lease;
on success the commit handle starts with cumulative size 0.  The create
response is passed in directly («oracle» of one call). -/
def MultipartBlobBegin (createResp : RemoteResp) (bucket key lease : String) :
    Except AdlError MPHandle :=
  match mapADLv1Error createResp.resp createResp.err false with
  | some e => .error e
  | none => .ok ⟨pathMap bucket key, lease, 0⟩

/-- `(*ADLv1).detectTransientError`: zero-length append at the given
offset with the close flag, under the same lease; returns its
classification (rawError = false).  Also returns the call issued. -/
def detectTransientError (oracle : AppendCall → RemoteResp)
    (key lease : String) (offset : Nat) : Option AdlError × AppendCall :=
  let probe : AppendCall := ⟨key, .empty, some (toInt64 offset), .close, lease⟩
  let r := oracle probe
  (mapADLv1Error r.resp r.err false, probe)

/-- `(*ADLv1).uploadPart`: append the part body at
`int64(offset - param.Size)` (uint64 subtraction) with the data flag,
classify with rawError = true; a structured 404 becomes `EINVAL`; a
structured 400 `BadOffsetException` triggers the transient-error probe at
`offset` and succeeds if the probe classifies clean; any other structured
error (and a bad-offset error whose probe failed) is re-mapped through
the non-raw classifier of the original response.  Returns the error and
the trace of appends issued. -/
def uploadPart (oracle : AppendCall → RemoteResp)
    (key lease : String) (declaredSize offset : Nat) :
    Option AdlError × List AppendCall :=
  let call : AppendCall :=
    ⟨key, .stream declaredSize, some (toInt64 (u64sub offset declaredSize)), .data, lease⟩
  let r := oracle call
  match mapADLv1Error r.resp r.err true with
  | none => (none, [call])
  | some e =>
    match e with
    | .adlv1Err re resp =>
      if resp.statusCode = 404 then
        (some .einval, [call])
      else if resp.statusCode = 400 ∧ re.exception = "BadOffsetException" then
        let (appendErr, probe) := detectTransientError oracle key lease offset
        match appendErr with
        | none => (none, [call, probe])
        | some _ => (mapADLv1Error (some resp) false false, [call, probe])
      else
        (mapADLv1Error (some resp) false false, [call])
    | e => (some e, [call])

/-- `(*ADLv1).MultipartBlobAdd`: increment the handle's cumulative size
by the declared part size *before* issuing the append, then upload the
part at the new cumulative offset.  Returns the error, the updated
handle, and the appends issued (the size is updated even when the upload
fails, as in the source where `commitData.Size += param.Size` precedes
`uploadPart`). -/
def MultipartBlobAdd (oracle : AppendCall → RemoteResp)
    (h : MPHandle) (declaredSize : Nat) :
    Option AdlError × MPHandle × List AppendCall :=
  let newSize := u64add h.size declaredSize
  let (err, calls) := uploadPart oracle h.key h.uploadId declaredSize newSize
  (err, { h with size := newSize }, calls)

/-- `(*ADLv1).MultipartBlobCommit`: zero-length append at the final
cumulative size with the close flag; a classified `ENOENT` is swallowed
as success.  Returns the error and the single append issued. -/
def MultipartBlobCommit (oracle : AppendCall → RemoteResp) (h : MPHandle) :
    Option AdlError × List AppendCall :=
  let call : AppendCall := ⟨h.key, .empty, some (toInt64 h.size), .close, h.uploadId⟩
  let r := oracle call
  let err := mapADLv1Error r.resp r.err false
  match err with
  | some .enoent => (none, [call])
  | e => (e, [call])

/-- `(*ADLv1).MultipartBlobAbort`: zero-length close-flagged append with
a nil offset, solely to release the lease. -/
def MultipartBlobAbort (oracle : AppendCall → RemoteResp) (h : MPHandle) :
    Option AdlError × List AppendCall :=
  let call : AppendCall := ⟨h.key, .empty, none, .close, h.uploadId⟩
  let r := oracle call
  (mapADLv1Error r.resp r.err false, call :: [])

/-- Run a sequence of `MultipartBlobAdd` calls on one handle (the caller
issues them strictly sequentially per the `NoParallelMultipart`
contract), collecting the final handle and the full append trace. -/
def runAdds (oracle : AppendCall → RemoteResp) (h : MPHandle) :
    List Nat → MPHandle × List AppendCall
  | [] => (h, [])
  | d :: ds =>
    let step := MultipartBlobAdd oracle h d
    let rest := runAdds oracle step.2.1 ds
    (rest.1, step.2.2 ++ rest.2)

/-- The appends a fully successful sequence of Adds issues: the part for
declared size `d` starting from cumulative size `s` is appended at
offset `s` (that is, new cumulative size minus declared size) with the
data flag. -/
def expectedAddCalls (key lease : String) : List Nat → Nat → List AppendCall
  | [], _ => []
  | d :: ds, s =>
    ⟨key, .stream d, some (toInt64 s), .data, lease⟩ :: expectedAddCalls key lease ds (s + d)

/-! ## Deletion orderer -/

/-- `strings.Split(s, "/")` on the character list: split at every `/`,
yielding at least one (possibly empty) group. -/
def splitSlashCh : List Char → List (List Char)
  | [] => [[]]
  | c :: rest =>
    if c = '/' then [] :: splitSlashCh rest
    else
      match splitSlashCh rest with
      | [] => [[c]]
      | g :: gs => (c :: g) :: gs

/-- The path depth used by `DeleteBlobs`:
`len(strings.Split(strings.TrimRight(key, "/"), "/"))`. -/
def adlDepth (s : String) : Nat := (splitSlashCh (trimRightSlash s).data).length

/-- The `sort.Slice` comparator of `DeleteBlobs`: deeper keys first,
ties broken by ascending lexicographic comparison. -/
def adlLess (a b : String) : Bool :=
  if adlDepth a ≠ adlDepth b then decide (adlDepth b < adlDepth a)
  else decide (a < b)

/-- Not-strictly-after, the non-strict order induced by the `DeleteBlobs`
comparator; `sort.Slice` produces a permutation sorted with respect to
it. -/
def adlKeyLE (a b : String) : Prop := ¬ adlLess b a = true

instance : DecidableRel adlKeyLE := fun a b => by
  unfold adlKeyLE; infer_instance

/-- The sorted order `DeleteBlobs` establishes (modelled with insertion
sort; the comparator is antisymmetric up to string equality, so every
sort consistent with it yields this same list). -/
def sortKeys (items : List String) : List String := items.insertionSort adlKeyLE

/-- The outcome of a remote `Delete` call: response, transport error, and
the remote `OperationResult` flag. -/
structure DeleteResp where
  resp : Option HTTPResponse
  err : Bool
  operationResult : Bool
deriving DecidableEq, Repr

/-- `(*ADLv1).DeleteBlob`: delete at the path of the
trailing-slash-trimmed key (non-recursive); a classification error is
returned, and a false `OperationResult` surfaces as `ENOENT`. -/
def DeleteBlob (oracle : String → DeleteResp) (bucket key : String) :
    Option AdlError :=
  let r := oracle (pathMap bucket (trimRightSlash key))
  match mapADLv1Error r.resp r.err false with
  | some e => some e
  | none => if r.operationResult then none else some .enoent

/-- The sequential delete loop of `DeleteBlobs`: issue single-key deletes
in list order, aborting at the first failure.  Returns the error and the
trace of keys attempted. -/
def deleteSeq (oracle : String → DeleteResp) (bucket : String) :
    List String → Option AdlError × List String
  | [] => (none, [])
  | k :: rest =>
    match DeleteBlob oracle bucket k with
    | some e => (some e, [k])
    | none =>
      let r := deleteSeq oracle bucket rest
      (r.1, k :: r.2)

/-- `(*ADLv1).DeleteBlobs`: sort the keys deepest-first (ties ascending)
and delete sequentially, aborting at the first failure. -/
def DeleteBlobs (oracle : String → DeleteResp) (bucket : String)
    (items : List String) : Option AdlError × List String :=
  deleteSeq oracle bucket (sortKeys items)

/-! ## Listing engine -/

/-- One entry of a remote `ListFileStatus` result
(`adl.FileStatusProperties` as far as the adapter reads it). -/
structure FileStatus where
  pathSuffix : String
  type : String
  modificationTime : Int
  length : Nat
deriving DecidableEq, Repr, Inhabited

/-- The outcome of a remote `ListFileStatus` call: response, transport
error, and the decoded entries (consulted only when classification
succeeds). -/
structure RemoteListResp where
  resp : Option HTTPResponse
  err : Bool
  statuses : List FileStatus
deriving DecidableEq, Repr

/-- `adlv1LastModified`: `time.Unix(t/1000, t%1000000)` with Go
truncated division, modelled as the (seconds, nanoseconds) pair. -/
def adlv1LastModified (t : Int) : Int × Int := (t.tdiv 1000, t.tmod 1000000)

/-- A listing result row (`BlobItemOutput` as far as this backend fills
it): key, optional last-modified pair, size.  The synthesized directory
self-row sets only the key (zero values elsewhere). -/
structure BlobItem where
  key : String
  lastModified : Option (Int × Int)
  size : Nat
deriving DecidableEq, Repr

/-- `adlv1FileStatus2BlobItem`: a listing row from a remote entry. -/
def fileStatus2BlobItem (f : FileStatus) (key : String) : BlobItem :=
  ⟨key, some (adlv1LastModified f.modificationTime), f.length⟩

/-- The return of one `appendToListResults` level: accumulated prefixes,
accumulated items, the threaded maxKeys budget, the error, and the trace
of remote paths listed. -/
structure ListRet where
  prefixes : List String
  items : List BlobItem
  maxKeys : Option Nat
  error : Option AdlError
  trace : List String
deriving DecidableEq, Repr

/-- The child loop of `appendToListResults`: for each remote entry, build
its key by joining the trimmed path; a directory entry in recursive mode
first gets its own placeholder row (`key ++ "/"`) and is then recursed
into through `recurse` (the result's prefixes, items and budget are
assigned back unconditionally and its error is dropped, exactly as the
assignment-in-loop does in the source); a directory in non-recursive
mode contributes only a prefix row; a leaf contributes an item row. -/
def listChildren
    (recurse : String → Option Nat → List String → List BlobItem → ListRet)
    (trimmedPath : String) (recursive : Bool) :
    List FileStatus → Option Nat → List String → List BlobItem →
    List String × List BlobItem × Option Nat × List String
  | [], mk, prefixes, items => (prefixes, items, mk, [])
  | st :: rest, mk, prefixes, items =>
    let key := if trimmedPath = "" then st.pathSuffix
               else trimmedPath ++ "/" ++ st.pathSuffix
    if st.type = "DIRECTORY" then
      if recursive then
        let items := items ++ [fileStatus2BlobItem st (key ++ "/")]
        let r := recurse key mk prefixes items
        let rest := listChildren recurse trimmedPath recursive rest r.maxKeys r.prefixes r.items
        (rest.1, rest.2.1, rest.2.2.1, r.trace ++ rest.2.2.2)
      else
        listChildren recurse trimmedPath recursive rest mk (prefixes ++ [key ++ "/"]) items
    else
      listChildren recurse trimmedPath recursive rest mk prefixes
        (items ++ [fileStatus2BlobItem st key])

/-- `(*ADLv1).appendToListResults`, with a fuel parameter bounding the
recursion depth (the source recurses on the native stack; exhausted fuel
returns the model-artifact error).  Lists the remote path, classifies
(non-raw); on error returns nil accumulations with the error.  A
non-empty path whose listing is a single empty-suffix entry is a file:
emit one item row unless the path is delimiter-terminated, and stop.
Otherwise a non-recursive listing synthesizes the entry for the queried
path itself (an item row if delimiter-terminated, else a prefix row),
the budget is decremented by the fetched-entry count with uint32
arithmetic, and the children are processed.  The `startAfter` argument
is accepted but never used (recursion passes `""`). -/
def appendToListResults (oracle : String → RemoteListResp) (bucket : String) :
    Nat → String → Bool → String → Option Nat → List String → List BlobItem →
    ListRet
  | 0, _, _, _, mk, _, _ => ⟨[], [], mk, some .fuelExhausted, []⟩
  | Nat.succ fuel, path, recursive, _, mk, prefixes, items =>
    let rp := pathMap bucket path
    let r := oracle rp
    match mapADLv1Error r.resp r.err false with
    | some e => ⟨[], [], mk, some e, [rp]⟩
    | none =>
      let sts := r.statuses
      if path ≠ "" ∧ sts.length = 1 ∧ (sts.headI.pathSuffix = "") then
        let items := if ¬ hasSuffixSlash path then
            items ++ [fileStatus2BlobItem sts.headI path]
          else items
        ⟨prefixes, items, mk, none, [rp]⟩
      else
        let prefixes := if path ≠ "" ∧ ¬ recursive ∧ ¬ hasSuffixSlash path then
            prefixes ++ [path ++ "/"] else prefixes
        let items := if path ≠ "" ∧ ¬ recursive ∧ hasSuffixSlash path then
            items ++ [⟨path, none, 0⟩] else items
        let trimmedPath := trimRightSlash path
        let mk := mk.map (fun m => u32sub m sts.length)
        let rec1 := fun key mk prefixes items =>
          appendToListResults oracle bucket fuel key recursive "" mk prefixes items
        let out := listChildren rec1 trimmedPath recursive sts mk prefixes items
        ⟨out.1, out.2.1, out.2.2.1, none, rp :: out.2.2.2⟩

/-- `ListBlobsInput` as far as this backend reads it. -/
structure ListBlobsInput where
  prefix? : Option String
  delimiter : Option String
  maxKeys : Option Nat
  startAfter : Option String
  continuationToken : Option String
deriving DecidableEq, Repr

/-- `ListBlobsOutput` as far as this backend fills it. -/
structure ListBlobsOutput where
  prefixes : List String
  items : List BlobItem
  isTruncated : Bool
deriving DecidableEq, Repr

instance (ε α : Type) [DecidableEq ε] [DecidableEq α] :
    DecidableEq (Except ε α) := fun a b =>
  match a, b with
  | .error e1, .error e2 =>
    if h : e1 = e2 then .isTrue (by rw [h]) else .isFalse (by simp [h])
  | .error _, .ok _ => .isFalse (by simp)
  | .ok _, .error _ => .isFalse (by simp)
  | .ok v1, .ok v2 =>
    if h : v1 = v2 then .isTrue (by rw [h]) else .isFalse (by simp [h])

/-- `(*ADLv1).ListBlobs`: a nil delimiter means a recursive flat listing
(continuation tokens and start-after are unsupported there); a delimiter
other than `"/"` is unsupported; start-after, when present, replaces the
continuation token; a top-level `ENOENT` becomes an empty result; the
output is never truncated.  Also returns the trace of remote paths
listed. -/
def ListBlobs (oracle : String → RemoteListResp) (bucket : String)
    (fuel : Nat) (param : ListBlobsInput) :
    Except AdlError ListBlobsOutput × List String :=
  let check : Option AdlError :=
    match param.delimiter with
    | none =>
      if param.continuationToken ≠ none ∨ param.startAfter ≠ none then
        some .enotsup
      else none
    | some d => if d ≠ "/" then some .enotsup else none
  match check with
  | some e => (.error e, [])
  | none =>
    let recursive := param.delimiter.isNone
    let continuationToken :=
      match param.startAfter with
      | some sa => some sa
      | none => param.continuationToken
    let r := appendToListResults oracle bucket fuel (nilStr param.prefix?)
      recursive (nilStr continuationToken) param.maxKeys [] []
    match r.error with
    | some e =>
      if e = .enoent then (.ok ⟨r.prefixes, r.items, false⟩, r.trace)
      else (.error e, r.trace)
    | none => (.ok ⟨r.prefixes, r.items, false⟩, r.trace)

/-! ## A tree model of the remote hierarchical filesystem

For claims quantifying over whole remote states, the remote is a finite
tree of files and directories; an oracle *models* the tree when every
node's listing response is the one the remote filesystem would give. -/

/-- A node of the remote filesystem: a file or a directory, each with
its modification time and length as reported by `ListFileStatus`. -/
inductive FsTree where
  | file (mt : Int) (len : Nat)
  | dir (mt : Int) (len : Nat) (children : List (String × FsTree))

/-- The remote entry for a named child node. -/
def statusOf (n : String) : FsTree → FileStatus
  | .file mt len => ⟨n, "FILE", mt, len⟩
  | .dir mt len _ => ⟨n, "DIRECTORY", mt, len⟩

/-- The remote `ListFileStatus` entries of a directory's children. -/
def statusesOf (cs : List (String × FsTree)) : List FileStatus :=
  cs.map (fun c => statusOf c.1 c.2)

/-- The key the listing engine computes for child `n` of the (already
trailing-slash-trimmed) path `p`. -/
def childKey (p n : String) : String := if p = "" then n else p ++ "/" ++ n

mutual

/-- Height of a tree node (files are 0, a directory is one more than its
tallest child). -/
def height : FsTree → Nat
  | .file _ _ => 0
  | .dir _ _ cs => 1 + heightL cs

/-- Height of a list of children. -/
def heightL : List (String × FsTree) → Nat
  | [] => 0
  | c :: cs => max (height c.2) (heightL cs)

end

/-- Well-formed trees: every child name is non-empty and contains no
delimiter (as the remote path suffixes of a real hierarchical filesystem
do). -/
inductive Wf : FsTree → Prop
  | file (mt : Int) (len : Nat) : Wf (.file mt len)
  | dir (mt : Int) (len : Nat) (cs : List (String × FsTree))
      (hn : ∀ c ∈ cs, c.1 ≠ "" ∧ '/' ∉ c.1.data)
      (hw : ∀ c ∈ cs, Wf c.2) :
      Wf (.dir mt len cs)

/-- `Models oracle p t`: the listing oracle answers, at the remote path
the adapter derives from logical path `p`, exactly what a remote
filesystem holding tree `t` at `p` would answer — a file lists as one
entry with an empty suffix, a directory lists its children, and the
children in turn are modelled at their keys. -/
inductive Models (oracle : String → RemoteListResp) (bucket : String) :
    String → FsTree → Prop
  | file (p : String) (mt : Int) (len : Nat)
      (h : oracle (pathMap bucket p) = ⟨some ⟨200, none⟩, false, [⟨"", "FILE", mt, len⟩]⟩) :
      Models oracle bucket p (.file mt len)
  | dir (p : String) (mt : Int) (len : Nat) (cs : List (String × FsTree))
      (h : oracle (pathMap bucket p) = ⟨some ⟨200, none⟩, false, statusesOf cs⟩)
      (hc : ∀ c ∈ cs, Models oracle bucket (childKey (trimRightSlash p) c.1) c.2) :
      Models oracle bucket p (.dir mt len cs)

mutual

/-- The rows a recursive flat listing owes for one node at key `key`:
a file is one item row; a directory is its own placeholder row
(`key ++ "/"`) followed by its children's rows. -/
def flattenNode (key : String) : FsTree → List BlobItem
  | .file mt len => [⟨key, some (adlv1LastModified mt), len⟩]
  | .dir mt len cs =>
    ⟨key ++ "/", some (adlv1LastModified mt), len⟩ :: flattenChildren key cs

/-- The rows a recursive flat listing owes for the children of a
directory at (trimmed) path `p`, in listing order. -/
def flattenChildren (p : String) : List (String × FsTree) → List BlobItem
  | [] => []
  | c :: cs => flattenNode (childKey p c.1) c.2 ++ flattenChildren p cs

end

/-! ## Auxiliary predicates -/

/-- A remote response whose classification is clean: a response is
present and its status is in the 200–299 success range. -/
def okRemote (r : RemoteResp) : Prop :=
  ∃ hr, r.resp = some hr ∧ 200 ≤ hr.statusCode ∧ hr.statusCode < 300

/-- An append oracle all of whose responses classify clean. -/
def Succeeds (oracle : AppendCall → RemoteResp) : Prop :=
  ∀ c, okRemote (oracle c)

/-- The append oracle that always answers 200. -/
def okOracle : AppendCall → RemoteResp := fun _ => ⟨some ⟨200, none⟩, false⟩

/-! ## Helper lemmas -/

theorem dropWhile_self_idem (p : Char → Bool) (l : List Char) :
    List.dropWhile p (List.dropWhile p l) = List.dropWhile p l := by
  induction l with
  | nil => rfl
  | cons c l ih =>
    by_cases h : p c
    · simp [List.dropWhile_cons, h, ih]
    · simp [List.dropWhile_cons, h]

theorem trimLeftSlash_idem (s : String) :
    trimLeftSlash (trimLeftSlash s) = trimLeftSlash s := by
  simp [trimLeftSlash, dropWhile_self_idem]

theorem mapADLv1Error_ok (r : RemoteResp) (h : okRemote r) (raw : Bool) :
    mapADLv1Error r.resp r.err raw = none := by
  obtain ⟨hr, h1, h2, h3⟩ := h
  rw [h1]
  have : ¬ (hr.statusCode < 200 ∨ 300 ≤ hr.statusCode) := by omega
  simp [mapADLv1Error, this]

theorem uploadPart_ok (oracle : AppendCall → RemoteResp) (key lease : String)
    (d off : Nat)
    (h : okRemote (oracle ⟨key, .stream d, some (toInt64 (u64sub off d)), .data, lease⟩)) :
    uploadPart oracle key lease d off =
      (none, [⟨key, .stream d, some (toInt64 (u64sub off d)), .data, lease⟩]) := by
  rw [uploadPart]
  rw [mapADLv1Error_ok _ h]

theorem u64lt (s d : Nat) (h : s + d < U64) : u64add s d = s + d := by
  unfold u64add U64
  unfold U64 at h
  omega

theorem u64sub_add (s d : Nat) (h : s + d < U64) : u64sub (s + d) d = s := by
  unfold u64sub U64
  unfold U64 at h
  omega

theorem runAdds_spec (oracle : AppendCall → RemoteResp) (hok : Succeeds oracle)
    (key lease : String) :
    ∀ (ds : List Nat) (s : Nat), s + ds.sum < U64 →
      runAdds oracle ⟨key, lease, s⟩ ds =
        (⟨key, lease, s + ds.sum⟩, expectedAddCalls key lease ds s) := by
  intro ds
  induction ds with
  | nil => intro s _; simp [runAdds, expectedAddCalls]
  | cons d ds ih =>
    intro s hs
    have hcons : (d :: ds).sum = d + ds.sum := by simp
    have hs2 : s + d + ds.sum < U64 := by omega
    have hsd : s + d < U64 := by omega
    have hadd : u64add s d = s + d := u64lt s d hsd
    have hsub : u64sub (s + d) d = s := u64sub_add s d hsd
    rw [runAdds]
    have hup : uploadPart oracle key lease d (u64add s d) =
        (none, [⟨key, .stream d, some (toInt64 (u64sub (u64add s d) d)), .data, lease⟩]) :=
      uploadPart_ok oracle key lease d (u64add s d) (hok _)
    rw [MultipartBlobAdd, hup]
    simp only [hadd]
    simp only [hsub]
    rw [ih (s + d) hs2]
    have hsz : s + (d :: ds).sum = s + d + ds.sum := by omega
    rw [hsz, expectedAddCalls]
    simp

theorem commit_trace (oracle : AppendCall → RemoteResp) (h : MPHandle) :
    (MultipartBlobCommit oracle h).2 =
      [⟨h.key, .empty, some (toInt64 h.size), .close, h.uploadId⟩] := by
  rw [MultipartBlobCommit]
  split <;> rfl

/-! ## Claim theorems -/

/-- C8: `path` strips leading delimiters from the key; with a configured
root prefix it returns `root ++ "/" ++ strippedKey`, except that an
empty stripped key returns the root unchanged; with an empty root prefix
`path` is idempotent. -/
theorem path_mapping_idempotent :
    (∀ k, pathMap "" (pathMap "" k) = pathMap "" k) ∧
    (∀ k, pathMap "" k = trimLeftSlash k) ∧
    (∀ b k, b ≠ "" → trimLeftSlash k ≠ "" →
      pathMap b k = b ++ "/" ++ trimLeftSlash k) ∧
    (∀ b k, b ≠ "" → trimLeftSlash k = "" → pathMap b k = b) := by
  refine ⟨?_, ?_, ?_, ?_⟩
  · intro k
    simp [pathMap, trimLeftSlash_idem]
  · intro k
    simp [pathMap]
  · intro b k hb hk
    simp [pathMap, hb, hk]
  · intro b k hb hk
    simp [pathMap, hb, hk]

/-- Witness for C8 at root prefix `"bkt"` and key `"/x"`. -/
theorem path_mapping_idempotent_witness :
    (("bkt" : String) ≠ "" ∧ trimLeftSlash "/x" ≠ "") ∧
      pathMap "bkt" "/x" = "bkt" ++ "/" ++ trimLeftSlash "/x" :=
  ⟨⟨by decide, by decide⟩,
    path_mapping_idempotent.2.2.1 "bkt" "/x" (by decide) (by decide)⟩

/-- C1: Begin starts the handle at cumulative size 0; each Add adds the
declared size to the cumulative size before issuing its append (even a
failing Add updates the size), the append goes out at offset equal to
the previous cumulative size (new cumulative size minus declared size)
with the data flag; after the k-th Add the cumulative size is the sum of
the first k declared sizes; Commit issues a single zero-length
close-flagged append at the final cumulative size.  Concretely,
Add(100) then Add(50) reaches cumulative size 150 with the second append
at offset 100. -/
theorem multipart_offset_bookkeeping :
    (∀ r bucket key lease, okRemote r →
      MultipartBlobBegin r bucket key lease = .ok ⟨pathMap bucket key, lease, 0⟩) ∧
    (∀ oracle (h : MPHandle) d,
      ((MultipartBlobAdd oracle h d).2.1).size = u64add h.size d) ∧
    (∀ oracle key lease (ds : List Nat), Succeeds oracle → ds.sum < U64 →
      (∀ k, ((runAdds oracle ⟨key, lease, 0⟩ (ds.take k)).1).size = (ds.take k).sum) ∧
      (runAdds oracle ⟨key, lease, 0⟩ ds).2 = expectedAddCalls key lease ds 0 ∧
      (MultipartBlobCommit oracle (runAdds oracle ⟨key, lease, 0⟩ ds).1).2 =
        [⟨key, .empty, some (toInt64 ds.sum), .close, lease⟩]) ∧
    (∀ oracle, Succeeds oracle →
      ((runAdds oracle ⟨"k", "L", 0⟩ [100, 50]).1).size = 150 ∧
      (runAdds oracle ⟨"k", "L", 0⟩ [100, 50]).2.get? 1 =
        some ⟨"k", .stream 50, some 100, .data, "L"⟩) := by
  have hbegin : ∀ (r : RemoteResp) (bucket key lease : String), okRemote r →
      MultipartBlobBegin r bucket key lease = .ok ⟨pathMap bucket key, lease, 0⟩ := by
    intro r bucket key lease hok
    rw [MultipartBlobBegin, mapADLv1Error_ok r hok]
  refine ⟨hbegin, ?_, ?_, ?_⟩
  · intro oracle h d
    rfl
  · intro oracle key lease ds hok hsum
    have hrun := runAdds_spec oracle hok key lease ds 0 (by omega)
    refine ⟨?_, ?_, ?_⟩
    · intro k
      have hk : (ds.take k).sum + (ds.drop k).sum = ds.sum := by
        rw [← List.sum_append, List.take_append_drop]
      have := runAdds_spec oracle hok key lease (ds.take k) 0 (by omega)
      rw [this]
      simp
    · rw [hrun]
    · rw [hrun, commit_trace]
      simp
  · intro oracle hok
    have h1 := runAdds_spec oracle hok "k" "L" [100, 50] 0 (by norm_num [U64])
    constructor
    · rw [h1]
      decide
    · rw [h1]
      rfl

/-- Witness for C1 with the always-200 oracle and parts of 100 and 50
bytes. -/
theorem multipart_offset_bookkeeping_witness :
    ((runAdds okOracle ⟨"k", "L", 0⟩ [100, 50]).1).size = 150 ∧
      (runAdds okOracle ⟨"k", "L", 0⟩ [100, 50]).2.get? 1 =
        some ⟨"k", .stream 50, some 100, .data, "L"⟩ :=
  multipart_offset_bookkeeping.2.2.2 okOracle
    (fun _ => ⟨⟨200, none⟩, rfl, by decide, by decide⟩)

/-- C2: when an Add's append classifies as a structured 400
`BadOffsetException`, the adapter issues a zero-length close-flagged
probe append at the new cumulative offset under the same lease; a clean
probe makes Add succeed, and a failing probe makes Add return the error
classified from the original append response (which for status 400 is
`EINVAL`), not the probe's error.  The last conjunct shows Add invokes
`uploadPart` at the incremented cumulative size, so the probe offset is
the new cumulative offset. -/
theorem badoffset_recovery (oracle : AppendCall → RemoteResp)
    (key lease : String) (d off : Nat) (hr : HTTPResponse) (re : RemoteException)
    (hresp : (oracle ⟨key, .stream d, some (toInt64 (u64sub off d)), .data, lease⟩).resp = some hr)
    (hst : hr.statusCode = 400) (hbody : hr.body = some re)
    (hexc : re.exception = "BadOffsetException") :
    (mapADLv1Error (oracle ⟨key, .empty, some (toInt64 off), .close, lease⟩).resp
        (oracle ⟨key, .empty, some (toInt64 off), .close, lease⟩).err false = none →
      uploadPart oracle key lease d off =
        (none, [⟨key, .stream d, some (toInt64 (u64sub off d)), .data, lease⟩,
                ⟨key, .empty, some (toInt64 off), .close, lease⟩])) ∧
    (∀ e, mapADLv1Error (oracle ⟨key, .empty, some (toInt64 off), .close, lease⟩).resp
        (oracle ⟨key, .empty, some (toInt64 off), .close, lease⟩).err false = some e →
      uploadPart oracle key lease d off =
        (mapADLv1Error (some hr) false false,
         [⟨key, .stream d, some (toInt64 (u64sub off d)), .data, lease⟩,
          ⟨key, .empty, some (toInt64 off), .close, lease⟩])) ∧
    mapADLv1Error (some hr) false false = some .einval ∧
    (∀ h : MPHandle, MultipartBlobAdd oracle h d =
      ((uploadPart oracle h.key h.uploadId d (u64add h.size d)).1,
       ⟨h.key, h.uploadId, u64add h.size d⟩,
       (uploadPart oracle h.key h.uploadId d (u64add h.size d)).2)) := by
  have hclass : mapADLv1Error
      (oracle ⟨key, .stream d, some (toInt64 (u64sub off d)), .data, lease⟩).resp
      (oracle ⟨key, .stream d, some (toInt64 (u64sub off d)), .data, lease⟩).err true =
      some (.adlv1Err re hr) := by
    rw [hresp, mapADLv1Error]
    have : hr.statusCode < 200 ∨ 300 ≤ hr.statusCode := by omega
    simp [this, hbody]
  have hmap : mapADLv1Error (some hr) false false = some .einval := by
    rw [mapADLv1Error]
    have : hr.statusCode < 200 ∨ 300 ≤ hr.statusCode := by omega
    simp [this, mapHttpError, hst]
  refine ⟨?_, ?_, hmap, ?_⟩
  · intro hprobe
    rw [uploadPart, hclass]
    simp only [hst, hexc]
    simp [detectTransientError, hprobe]
  · intro e hprobe
    rw [uploadPart, hclass]
    simp only [hst, hexc]
    simp [detectTransientError, hprobe]
  · intro h
    rfl

/-- Witness for C2: oracle answering 400 `BadOffsetException` on data
appends and 200 on the probe; Add recovers. -/
theorem badoffset_recovery_witness :
    uploadPart
      (fun c => if c.flag = .close then ⟨some ⟨200, none⟩, false⟩
        else ⟨some ⟨400, some ⟨"BadOffsetException", "", ""⟩⟩, false⟩)
      "k" "L" 50 150 =
      (none, [⟨"k", .stream 50, some (toInt64 (u64sub 150 50)), .data, "L"⟩,
              ⟨"k", .empty, some (toInt64 150), .close, "L"⟩]) :=
  (badoffset_recovery
      (fun c => if c.flag = .close then ⟨some ⟨200, none⟩, false⟩
        else ⟨some ⟨400, some ⟨"BadOffsetException", "", ""⟩⟩, false⟩)
      "k" "L" 50 150 ⟨400, some ⟨"BadOffsetException", "", ""⟩⟩
      ⟨"BadOffsetException", "", ""⟩ (by decide) (by decide) (by decide)
      (by decide)).1 (by decide)

/-- C3: Commit issues exactly one zero-length close-flagged append at
the handle's final cumulative size; a classified not-found is swallowed
(Commit succeeds) and every other classified error is returned. -/
theorem commit_notfound_swallowed (oracle : AppendCall → RemoteResp)
    (h : MPHandle) :
    ((MultipartBlobCommit oracle h).2 =
      [⟨h.key, .empty, some (toInt64 h.size), .close, h.uploadId⟩]) ∧
    (mapADLv1Error (oracle ⟨h.key, .empty, some (toInt64 h.size), .close, h.uploadId⟩).resp
        (oracle ⟨h.key, .empty, some (toInt64 h.size), .close, h.uploadId⟩).err false =
        some .enoent →
      (MultipartBlobCommit oracle h).1 = none) ∧
    (∀ e, e ≠ .enoent →
      mapADLv1Error (oracle ⟨h.key, .empty, some (toInt64 h.size), .close, h.uploadId⟩).resp
        (oracle ⟨h.key, .empty, some (toInt64 h.size), .close, h.uploadId⟩).err false =
        some e →
      (MultipartBlobCommit oracle h).1 = some e) := by
  refine ⟨commit_trace oracle h, ?_, ?_⟩
  · intro hcl
    rw [MultipartBlobCommit, hcl]
  · intro e he hcl
    rw [MultipartBlobCommit, hcl]
    cases e <;> simp_all

/-- Witness for C3: a 404 on the commit append is swallowed. -/
theorem commit_notfound_swallowed_witness :
    (MultipartBlobCommit (fun _ => ⟨some ⟨404, none⟩, false⟩) ⟨"k", "L", 150⟩).1 = none :=
  (commit_notfound_swallowed (fun _ => ⟨some ⟨404, none⟩, false⟩) ⟨"k", "L", 150⟩).2.1
    (by decide)

theorem adlLess_eq_true_iff (a b : String) :
    adlLess a b = true ↔
      (adlDepth b < adlDepth a ∨ (adlDepth a = adlDepth b ∧ a < b)) := by
  unfold adlLess
  by_cases h : adlDepth a = adlDepth b
  · simp [h]
  · simp [h]

theorem adlKeyLE_iff (a b : String) :
    adlKeyLE a b ↔
      (adlDepth b < adlDepth a ∨ (adlDepth a = adlDepth b ∧ a ≤ b)) := by
  unfold adlKeyLE
  rw [adlLess_eq_true_iff]
  constructor
  · intro h
    rcases Nat.lt_trichotomy (adlDepth b) (adlDepth a) with hlt | heq | hgt
    · exact Or.inl hlt
    · refine Or.inr ⟨heq.symm, ?_⟩
      by_contra hba
      exact h (Or.inr ⟨heq, not_le.mp hba⟩)
    · exact absurd (Or.inl hgt) h
  · rintro (hlt | ⟨heq, hle⟩) hcontra
    · rcases hcontra with h1 | ⟨h2, _⟩
      · omega
      · omega
    · rcases hcontra with h1 | ⟨_, h3⟩
      · omega
      · exact absurd h3 (not_lt.mpr hle)

instance : IsTotal String adlKeyLE := by
  constructor
  intro a b
  rw [adlKeyLE_iff, adlKeyLE_iff]
  rcases Nat.lt_trichotomy (adlDepth a) (adlDepth b) with hlt | heq | hgt
  · exact Or.inr (Or.inl hlt)
  · rcases le_total a b with hab | hba
    · exact Or.inl (Or.inr ⟨heq, hab⟩)
    · exact Or.inr (Or.inr ⟨heq.symm, hba⟩)
  · exact Or.inl (Or.inl hgt)

instance : IsAntisymm String adlKeyLE := by
  constructor
  intro a b hab hba
  rw [adlKeyLE_iff] at hab hba
  rcases hab with h1 | ⟨h1, h2⟩
  · rcases hba with h3 | ⟨h3, _⟩
    · omega
    · omega
  · rcases hba with h3 | ⟨h3, h4⟩
    · omega
    · exact le_antisymm h2 h4

instance : IsTrans String adlKeyLE := by
  constructor
  intro a b c hab hbc
  rw [adlKeyLE_iff] at hab hbc ⊢
  rcases hab with h1 | ⟨h1, h2⟩
  · rcases hbc with h3 | ⟨h3, h4⟩
    · exact Or.inl (by omega)
    · exact Or.inl (by omega)
  · rcases hbc with h3 | ⟨h3, h4⟩
    · exact Or.inl (by omega)
    · exact Or.inr ⟨by omega, le_trans h2 h4⟩

theorem deleteSeq_ok (oracle : String → DeleteResp) (bucket : String) :
    ∀ l : List String, (∀ k ∈ l, DeleteBlob oracle bucket k = none) →
      deleteSeq oracle bucket l = (none, l) := by
  intro l
  induction l with
  | nil => intro _; rfl
  | cons k rest ih =>
    intro h
    rw [deleteSeq, h k (List.mem_cons_self k rest), ih (fun x hx => h x (List.mem_cons_of_mem k hx))]

theorem deleteSeq_abort (oracle : String → DeleteResp) (bucket : String)
    (x : String) (e : AdlError) (hx : DeleteBlob oracle bucket x = some e) :
    ∀ (l1 : List String) (l2 : List String),
      (∀ k ∈ l1, DeleteBlob oracle bucket k = none) →
      deleteSeq oracle bucket (l1 ++ x :: l2) = (some e, l1 ++ [x]) := by
  intro l1
  induction l1 with
  | nil => intro l2 _; simp [deleteSeq, hx]
  | cons k rest ih =>
    intro l2 h
    rw [List.cons_append, deleteSeq, h k (List.mem_cons_self k rest),
      ih l2 (fun y hy => h y (List.mem_cons_of_mem k hy))]
    rfl

/-- C4: `DeleteBlobs` reorders the keys into a permutation sorted by
descending path-depth, ties broken by ascending lexicographic order
(depth = number of segments of the trailing-delimiter-trimmed key), and
issues sequential single-key deletes in that order, aborting at the
first failure; every input ordering of `{a, a/b, a/b/c}` is deleted in
the order `a/b/c, a/b, a`. -/
theorem delete_ordering :
    (∀ items : List String, List.Perm (sortKeys items) items) ∧
    (∀ items : List String, (sortKeys items).Pairwise
      (fun a b => adlDepth b < adlDepth a ∨ (adlDepth a = adlDepth b ∧ a ≤ b))) ∧
    (∀ oracle bucket (items : List String),
      (∀ k ∈ sortKeys items, DeleteBlob oracle bucket k = none) →
      DeleteBlobs oracle bucket items = (none, sortKeys items)) ∧
    (∀ oracle bucket (items : List String) l1 x l2 e,
      sortKeys items = l1 ++ x :: l2 →
      (∀ k ∈ l1, DeleteBlob oracle bucket k = none) →
      DeleteBlob oracle bucket x = some e →
      DeleteBlobs oracle bucket items = (some e, l1 ++ [x])) ∧
    (∀ p : List String, List.Perm p ["a", "a/b", "a/b/c"] →
      sortKeys p = ["a/b/c", "a/b", "a"]) := by
  refine ⟨?_, ?_, ?_, ?_, ?_⟩
  · intro items
    exact List.perm_insertionSort adlKeyLE items
  · intro items
    have h := List.sorted_insertionSort adlKeyLE items
    rw [List.Sorted] at h
    exact h.imp (fun hab => (adlKeyLE_iff _ _).mp hab)
  · intro oracle bucket items h
    exact deleteSeq_ok oracle bucket (sortKeys items) h
  · intro oracle bucket items l1 x l2 e hsort h1 hx
    rw [DeleteBlobs, hsort]
    exact deleteSeq_abort oracle bucket x e hx l1 l2 h1
  · intro p hp
    have hperm1 : List.Perm (sortKeys p) p := List.perm_insertionSort adlKeyLE p
    have hrev : List.Perm (["a", "a/b", "a/b/c"] : List String) ["a/b/c", "a/b", "a"] :=
      List.reverse_perm ["a/b/c", "a/b", "a"]
    have hperm2 : List.Perm (sortKeys p) ["a/b/c", "a/b", "a"] :=
      hperm1.trans (hp.trans hrev)
    have hs1 : List.Sorted adlKeyLE (sortKeys p) := List.sorted_insertionSort adlKeyLE p
    have hs2 : List.Sorted adlKeyLE ["a/b/c", "a/b", "a"] := by
      rw [List.Sorted]
      decide
    exact List.eq_of_perm_of_sorted hperm2 hs1 hs2

/-- Witness for C4: an always-succeeding delete oracle removes
`{a, a/b/c, a/b}` in the order `a/b/c, a/b, a`. -/
theorem delete_ordering_witness :
    DeleteBlobs (fun _ => ⟨some ⟨200, none⟩, false, true⟩) ""
      ["a", "a/b/c", "a/b"] = (none, ["a/b/c", "a/b", "a"]) := by
  have h := delete_ordering.2.2.1 (fun _ => ⟨some ⟨200, none⟩, false, true⟩) ""
    ["a", "a/b/c", "a/b"] (by decide)
  rw [h]
  decide

theorem appendToListResults_startAfter (oracle : String → RemoteListResp)
    (bucket : String) (fuel : Nat) (path : String) (recursive : Bool)
    (sa1 sa2 : String) (mk : Option Nat) (pre : List String) (it : List BlobItem) :
    appendToListResults oracle bucket fuel path recursive sa1 mk pre it =
      appendToListResults oracle bucket fuel path recursive sa2 mk pre it := by
  cases fuel <;> rfl

/-- C10: a delimited (delimiter `"/"`) listing is independent of the
`ContinuationToken` and `StartAfter` arguments: the resolved start-after
value is threaded into the listing engine but never reaches any remote
call, so two listings differing only in those arguments return identical
results (and identical remote-call traces). -/
theorem listing_ignores_startafter (oracle : String → RemoteListResp)
    (bucket : String) (fuel : Nat) (p : Option String) (mk : Option Nat)
    (ct1 sa1 ct2 sa2 : Option String) :
    ListBlobs oracle bucket fuel ⟨p, some "/", mk, sa1, ct1⟩ =
      ListBlobs oracle bucket fuel ⟨p, some "/", mk, sa2, ct2⟩ := by
  rw [ListBlobs, ListBlobs]
  simp only []
  rw [appendToListResults_startAfter oracle bucket fuel (nilStr p) (Option.isNone (some "/"))
    (nilStr (match sa1 with | some sa => some sa | none => ct1))
    (nilStr (match sa2 with | some sa => some sa | none => ct2)) mk [] []]

theorem string_append_length_ne (a b c : String) (h : b.length ≠ c.length) :
    a ++ b ≠ a ++ c := by
  intro he
  have := congrArg String.length he
  rw [String.length_append, String.length_append] at this
  omega

theorem str_merge (a b c bc : String) (h : b.data ++ c.data = bc.data) :
    a ++ b ++ c = a ++ bc := by
  apply String.ext
  rw [String.data_append, String.data_append, String.data_append,
    List.append_assoc, h]

theorem append_nonrec_two_children (oracle : String → RemoteListResp)
    (d : String) (hne : d ≠ "") (hsl : hasSuffixSlash d = false)
    (htrim : trimRightSlash d = d)
    (ta tb : Int) (la lb : Nat) (fuel : Nat) (mk : Option Nat) (sa : String)
    (pre : List String) (it : List BlobItem)
    (hor : oracle (pathMap "" d) = ⟨some ⟨200, none⟩, false,
      [⟨"a", "FILE", ta, la⟩, ⟨"b", "DIRECTORY", tb, lb⟩]⟩) :
    appendToListResults oracle "" (fuel + 1) d false sa mk pre it =
      ⟨pre ++ [d ++ "/", d ++ "/b/"],
       it ++ [⟨d ++ "/a", some (adlv1LastModified ta), la⟩],
       mk.map (fun m => u32sub m 2), none, [pathMap "" d]⟩ := by
  simp only [appendToListResults, hor, htrim]
  have hc : mapADLv1Error (some ⟨200, none⟩) false false = none := by decide
  have e1 : d ++ "/" ++ "b" ++ "/" = d ++ "/b/" :=
    (str_merge (d ++ "/") "b" "/" "b/" (by decide)).trans
      (str_merge d "/" "b/" "/b/" (by decide))
  have e2 : d ++ "/" ++ "a" = d ++ "/a" := str_merge d "/" "a" "/a" (by decide)
  simp [hc, hne, hsl, listChildren, fileStatus2BlobItem, e1, e2]

/-- C5: a non-recursive listing of a directory `d` whose remote listing
returns exactly the children `a` (a leaf) and `b` (a directory) yields
exactly one prefix row equal to `d ++ "/b/"` and exactly one item row
with key `d ++ "/a"`, and issues exactly one remote directory-listing
call (no recursion).  The full result additionally shows the synthesized
self-entry prefix row `d ++ "/"` for the queried prefix itself. -/
theorem nonrecursive_listing_two_children (oracle : String → RemoteListResp)
    (d : String) (hne : d ≠ "") (hsl : hasSuffixSlash d = false)
    (htrim : trimRightSlash d = d)
    (ta tb : Int) (la lb : Nat) (fuel : Nat) (mk : Option Nat)
    (sa ct : Option String)
    (hor : oracle (pathMap "" d) = ⟨some ⟨200, none⟩, false,
      [⟨"a", "FILE", ta, la⟩, ⟨"b", "DIRECTORY", tb, lb⟩]⟩) :
    ListBlobs oracle "" (fuel + 1) ⟨some d, some "/", mk, sa, ct⟩ =
      (.ok ⟨[d ++ "/", d ++ "/b/"],
            [⟨d ++ "/a", some (adlv1LastModified ta), la⟩], false⟩,
       [pathMap "" d]) ∧
    List.count (d ++ "/b/") [d ++ "/", d ++ "/b/"] = 1 ∧
    List.count (d ++ "/a")
      (List.map BlobItem.key [⟨d ++ "/a", some (adlv1LastModified ta), la⟩]) = 1 := by
  refine ⟨?_, ?_, ?_⟩
  · rw [ListBlobs]
    simp only [nilStr, Option.isNone_some]
    rw [append_nonrec_two_children oracle d hne hsl htrim ta tb la lb fuel mk _ [] [] hor]
    simp
  · have h1 : d ++ "/" ≠ d ++ "/b/" :=
      string_append_length_ne d "/" "/b/" (by decide)
    simp [List.count_cons, h1]
  · simp

/-- A remote state for the C5 scenario: directory `d` holding a leaf `a`
and a directory `b`. -/
def listOracleTwo : String → RemoteListResp := fun p =>
  if p = "d" then
    ⟨some ⟨200, none⟩, false,
      [⟨"a", "FILE", 1000, 5⟩, ⟨"b", "DIRECTORY", 2000, 4⟩]⟩
  else ⟨some ⟨404, none⟩, false, []⟩

/-- Witness for C5 at prefix `"d"`. -/
theorem nonrecursive_listing_two_children_witness :
    ListBlobs listOracleTwo "" 5 ⟨some "d", some "/", none, none, none⟩ =
      (.ok ⟨["d" ++ "/", "d" ++ "/b/"],
            [⟨"d" ++ "/a", some (adlv1LastModified 1000), 5⟩], false⟩,
       [pathMap "" "d"]) :=
  (nonrecursive_listing_two_children listOracleTwo "d" (by decide) (by decide)
    (by decide) 1000 2000 5 4 4 none none none (by decide)).1

theorem append_top_error (oracle : String → RemoteListResp) (bucket : String)
    (fuel : Nat) (path : String) (recursive : Bool) (sa : String)
    (mk : Option Nat) (pre : List String) (it : List BlobItem) (e : AdlError)
    (h : mapADLv1Error (oracle (pathMap bucket path)).resp
      (oracle (pathMap bucket path)).err false = some e) :
    appendToListResults oracle bucket (fuel + 1) path recursive sa mk pre it =
      ⟨[], [], mk, some e, [pathMap bucket path]⟩ := by
  simp only [appendToListResults, h]

/-- A remote state for the C7 recursion scenario: the root holds a leaf
`f`, a directory `d` and a leaf `g`, but listing `d` itself answers 404
(as after a concurrent delete). -/
def listOracleWipe : String → RemoteListResp := fun p =>
  if p = "" then
    ⟨some ⟨200, none⟩, false,
      [⟨"f", "FILE", 1, 1⟩, ⟨"d", "DIRECTORY", 2, 0⟩, ⟨"g", "FILE", 3, 3⟩]⟩
  else ⟨some ⟨404, none⟩, false, []⟩

/-- C7: a not-found classification of the directory listing issued
against the queried prefix itself makes the whole listing return an
empty result with no error (in both delimited and flat mode); that
empty-result treatment is applied at the top level only — in the
concrete recursion scenario, a 404 on a directory met during recursion
does not make that subtree an empty contribution: the source's
assignment-in-loop instead discards the rows accumulated before the
failing subtree (only `g` survives), while still reporting success. -/
theorem listing_top_notfound (oracle : String → RemoteListResp)
    (bucket : String) (fuel : Nat) (p : Option String)
    (henoent : mapADLv1Error (oracle (pathMap bucket (nilStr p))).resp
      (oracle (pathMap bucket (nilStr p))).err false = some .enoent) :
    (∀ mk sa ct, ListBlobs oracle bucket (fuel + 1) ⟨p, some "/", mk, sa, ct⟩ =
      (.ok ⟨[], [], false⟩, [pathMap bucket (nilStr p)])) ∧
    (∀ mk, ListBlobs oracle bucket (fuel + 1) ⟨p, none, mk, none, none⟩ =
      (.ok ⟨[], [], false⟩, [pathMap bucket (nilStr p)])) ∧
    (ListBlobs listOracleWipe "" 2 ⟨none, none, none, none, none⟩ =
        (.ok ⟨[], [⟨"g", some (adlv1LastModified 3), 3⟩], false⟩, ["", "d"]) ∧
      (.ok ⟨[], [⟨"g", some (adlv1LastModified 3), 3⟩], false⟩, (["", "d"] : List String)) ≠
        ((.ok ⟨[], [⟨"f", some (adlv1LastModified 1), 1⟩,
                    ⟨"d" ++ "/", some (adlv1LastModified 2), 0⟩,
                    ⟨"g", some (adlv1LastModified 3), 3⟩], false⟩, ["", "d"]) :
          Except AdlError ListBlobsOutput × List String)) := by
  refine ⟨?_, ?_, by decide, by decide⟩
  · intro mk sa ct
    rw [ListBlobs]
    simp only [Option.isNone_some]
    rw [append_top_error oracle bucket fuel (nilStr p) false _ mk [] [] .enoent henoent]
    simp
  · intro mk
    rw [ListBlobs]
    simp only [Option.isNone_none]
    rw [append_top_error oracle bucket fuel (nilStr p) true _ mk [] [] .enoent henoent]
    simp

/-- Witness for C7: a 404-everywhere remote yields an empty, successful
listing. -/
theorem listing_top_notfound_witness :
    ListBlobs (fun _ => ⟨some ⟨404, none⟩, false, []⟩) "" 3
      ⟨some "x", some "/", none, none, none⟩ =
      (.ok ⟨[], [], false⟩, [pathMap "" (nilStr (some "x"))]) :=
  (listing_top_notfound (fun _ => ⟨some ⟨404, none⟩, false, []⟩) "" 2 (some "x")
    (by decide)).1 none none none

/-- The budget-independent components of a listing level: prefixes,
items, error and trace. -/
def outView (r : ListRet) :
    List String × List BlobItem × Option AdlError × List String :=
  (r.prefixes, r.items, r.error, r.trace)

/-- The budget-independent components of a child loop result. -/
def loopView (t : List String × List BlobItem × Option Nat × List String) :
    List String × List BlobItem × List String :=
  (t.1, t.2.1, t.2.2.2)

theorem listChildren_mk_indep
    (recurse : String → Option Nat → List String → List BlobItem → ListRet)
    (hrec : ∀ key mk1 mk2 pre it,
      outView (recurse key mk1 pre it) = outView (recurse key mk2 pre it))
    (tp : String) (recursive : Bool) :
    ∀ (sts : List FileStatus) (mk1 mk2 : Option Nat) (pre : List String)
      (it : List BlobItem),
      loopView (listChildren recurse tp recursive sts mk1 pre it) =
        loopView (listChildren recurse tp recursive sts mk2 pre it) := by
  intro sts
  induction sts with
  | nil => intro mk1 mk2 pre it; rfl
  | cons st rest ih =>
    intro mk1 mk2 pre it
    simp only [listChildren]
    split
    · split
      · have h := hrec (if tp = "" then st.pathSuffix else tp ++ "/" ++ st.pathSuffix)
          mk1 mk2 pre
          (it ++ [fileStatus2BlobItem st
            ((if tp = "" then st.pathSuffix else tp ++ "/" ++ st.pathSuffix) ++ "/")])
        have hp := congrArg (fun t => t.1) h
        have hi := congrArg (fun t => t.2.1) h
        have ht := congrArg (fun t => t.2.2.2) h
        simp only [outView] at hp hi ht
        rw [loopView, loopView]
        rw [ht, hp, hi]
        have h2 := ih
          ((recurse (if tp = "" then st.pathSuffix else tp ++ "/" ++ st.pathSuffix) mk1 pre
            (it ++ [fileStatus2BlobItem st
              ((if tp = "" then st.pathSuffix else tp ++ "/" ++ st.pathSuffix) ++ "/")])).maxKeys)
          ((recurse (if tp = "" then st.pathSuffix else tp ++ "/" ++ st.pathSuffix) mk2 pre
            (it ++ [fileStatus2BlobItem st
              ((if tp = "" then st.pathSuffix else tp ++ "/" ++ st.pathSuffix) ++ "/")])).maxKeys)
          ((recurse (if tp = "" then st.pathSuffix else tp ++ "/" ++ st.pathSuffix) mk2 pre
            (it ++ [fileStatus2BlobItem st
              ((if tp = "" then st.pathSuffix else tp ++ "/" ++ st.pathSuffix) ++ "/")])).prefixes)
          ((recurse (if tp = "" then st.pathSuffix else tp ++ "/" ++ st.pathSuffix) mk2 pre
            (it ++ [fileStatus2BlobItem st
              ((if tp = "" then st.pathSuffix else tp ++ "/" ++ st.pathSuffix) ++ "/")])).items)
        have h2p := congrArg (fun t => t.1) h2
        have h2i := congrArg (fun t => t.2.1) h2
        have h2t := congrArg (fun t => t.2.2) h2
        simp only [loopView] at h2p h2i h2t
        rw [h2p, h2i, h2t]
      · exact ih mk1 mk2 (pre ++ [(if tp = "" then st.pathSuffix
          else tp ++ "/" ++ st.pathSuffix) ++ "/"]) it
    · exact ih mk1 mk2 pre (it ++ [fileStatus2BlobItem st
        (if tp = "" then st.pathSuffix else tp ++ "/" ++ st.pathSuffix)])

theorem appendGo_mk_indep (oracle : String → RemoteListResp) (bucket : String) :
    ∀ (fuel : Nat) (path : String) (recursive : Bool) (sa : String)
      (mk1 mk2 : Option Nat) (pre : List String) (it : List BlobItem),
      outView (appendToListResults oracle bucket fuel path recursive sa mk1 pre it) =
        outView (appendToListResults oracle bucket fuel path recursive sa mk2 pre it) := by
  intro fuel
  induction fuel with
  | zero => intro path recursive sa mk1 mk2 pre it; rfl
  | succ f ih =>
    intro path recursive sa mk1 mk2 pre it
    simp only [appendToListResults]
    split
    · rfl
    · split
      · rfl
      · have hrec : ∀ key mk1 mk2 pre it,
            outView (appendToListResults oracle bucket f key recursive "" mk1 pre it) =
              outView (appendToListResults oracle bucket f key recursive "" mk2 pre it) :=
          fun key mk1 mk2 pre it => ih key recursive "" mk1 mk2 pre it
        have h := listChildren_mk_indep _ hrec (trimRightSlash path) recursive
          (oracle (pathMap bucket path)).statuses
          (Option.map (fun m => u32sub m (oracle (pathMap bucket path)).statuses.length) mk1)
          (Option.map (fun m => u32sub m (oracle (pathMap bucket path)).statuses.length) mk2)
          (if path ≠ "" ∧ ¬ recursive ∧ ¬ hasSuffixSlash path then pre ++ [path ++ "/"] else pre)
          (if path ≠ "" ∧ ¬ recursive ∧ hasSuffixSlash path then it ++ [⟨path, none, 0⟩] else it)
        have hp := congrArg (fun t => t.1) h
        have hi := congrArg (fun t => t.2.1) h
        have ht := congrArg (fun t => t.2.2) h
        simp only [loopView] at hp hi ht
        simp only [outView]
        rw [hp, hi, ht]

theorem listChildren_mk_nonrec
    (recurse : String → Option Nat → List String → List BlobItem → ListRet)
    (tp : String) :
    ∀ (sts : List FileStatus) (mk : Option Nat) (pre : List String)
      (it : List BlobItem),
      (listChildren recurse tp false sts mk pre it).2.2.1 = mk := by
  intro sts
  induction sts with
  | nil => intro mk pre it; rfl
  | cons st rest ih =>
    intro mk pre it
    simp only [listChildren]
    split
    · simp only [Bool.false_eq_true, if_false]
      exact ih mk _ it
    · exact ih mk pre _

/-- C9: the maxKeys budget is decremented per directory call by the
fetched-entry count in uint32 arithmetic, so a call fetching more
entries than the remaining budget wraps the counter modulo 2^32 (for
budget 1 and 2 fetched entries the counter becomes 2^32 − 1) instead of
saturating at zero; and the budget never influences the produced
prefixes, items, error or remote-call trace (recursion always
continues), with the output never marked truncated. -/
theorem maxkeys_budget_wraps :
    (∀ m c : Nat, c < U32 → m < c → u32sub m c = U32 + m - c ∧ u32sub m c ≠ 0) ∧
    u32sub 1 2 = U32 - 1 ∧
    (∀ oracle bucket fuel path recursive sa mk1 mk2 pre it,
      outView (appendToListResults oracle bucket fuel path recursive sa mk1 pre it) =
        outView (appendToListResults oracle bucket fuel path recursive sa mk2 pre it)) ∧
    (∀ oracle bucket fuel param out tr,
      ListBlobs oracle bucket fuel param = (.ok out, tr) → out.isTruncated = false) ∧
    (∀ (oracle : String → RemoteListResp) bucket fuel sa m pre it,
      mapADLv1Error (oracle (pathMap bucket "")).resp
        (oracle (pathMap bucket "")).err false = none →
      (appendToListResults oracle bucket (fuel + 1) "" false sa (some m) pre it).maxKeys =
        some (u32sub m (oracle (pathMap bucket "")).statuses.length)) := by
  refine ⟨?_, ?_, ?_, ?_, ?_⟩
  · intro m c hc hm
    unfold u32sub U32
    unfold U32 at hc
    omega
  · unfold u32sub U32
    omega
  · intro oracle bucket fuel path recursive sa mk1 mk2 pre it
    exact appendGo_mk_indep oracle bucket fuel path recursive sa mk1 mk2 pre it
  · intro oracle bucket fuel param out tr h
    rw [ListBlobs] at h
    split at h
    · exact absurd (congrArg Prod.fst h) (by simp)
    · dsimp only at h
      split at h
      · split at h
        · injection h with h1 h2
          injection h1 with h3
          rw [← h3]
        · exact absurd (congrArg Prod.fst h) (by simp)
      · injection h with h1 h2
        injection h1 with h3
        rw [← h3]
  · intro oracle bucket fuel sa m pre it hcl
    simp only [appendToListResults, hcl]
    simp only [ne_eq, not_true_eq_false, false_and, if_false]
    exact listChildren_mk_nonrec _ _ _ _ _ _

/-- Witness for C9: budget 1 against a call fetching 2 entries wraps to
2^32 − 1. -/
theorem maxkeys_budget_wraps_witness :
    u32sub 1 2 = U32 + 1 - 2 ∧ u32sub 1 2 ≠ 0 :=
  maxkeys_budget_wraps.1 1 2 (by decide) (by decide)

theorem string_ne_empty_data (s : String) (h : s ≠ "") : s.data ≠ [] := by
  intro hd
  apply h
  apply String.ext
  rw [hd]

theorem getLast?_mem_char (l : List Char) (c : Char) (h : l.getLast? = some c) :
    c ∈ l := by
  rw [← List.head?_reverse] at h
  cases hr : l.reverse with
  | nil => rw [hr] at h; cases h
  | cons a t =>
    rw [hr] at h
    have ha : a = c := by injection h
    rw [← ha]
    exact List.mem_reverse.mp (by rw [hr]; exact List.mem_cons_self a t)

theorem trimRightSlash_no_trailing (s : String) (h : hasSuffixSlash s = false) :
    trimRightSlash s = s := by
  apply String.ext
  show (s.data.reverse.dropWhile (· == '/')).reverse = s.data
  cases hr : s.data.reverse with
  | nil =>
    have h2 : s.data = [] := by
      have h3 := congrArg List.reverse hr
      simpa using h3
    rw [h2]
    rfl
  | cons c t =>
    have hlast : s.data.getLast? = some c := by
      rw [← List.head?_reverse, hr]
      rfl
    have hc : (c == '/') = false := by
      unfold hasSuffixSlash at h
      rw [hlast] at h
      exact h
    rw [List.dropWhile_cons, hc]
    simp only [Bool.false_eq_true, if_false]
    rw [← hr]
    exact List.reverse_reverse s.data

theorem hasSuffixSlash_childKey (p n : String) (hn : n ≠ "") (hs : '/' ∉ n.data) :
    hasSuffixSlash (childKey p n) = false := by
  have hnd : n.data ≠ [] := string_ne_empty_data n hn
  obtain ⟨c, hc⟩ : ∃ c, n.data.getLast? = some c := by
    cases hcl : n.data.getLast? with
    | none => exact absurd (List.getLast?_eq_none_iff.mp hcl) hnd
    | some c => exact ⟨c, rfl⟩
  have hcn : c ∈ n.data := getLast?_mem_char n.data c hc
  have hcne : (c == '/') = false := by
    have : c ≠ '/' := fun he => hs (he ▸ hcn)
    simpa using this
  unfold childKey
  split
  · unfold hasSuffixSlash
    rw [hc]
    exact hcne
  · unfold hasSuffixSlash
    have hl : (p ++ "/" ++ n).data.getLast? = some c := by
      rw [String.data_append, List.getLast?_append, hc]
      rfl
    rw [hl]
    exact hcne

theorem statusOf_pathSuffix (n : String) (t : FsTree) :
    (statusOf n t).pathSuffix = n := by
  cases t <;> rfl

theorem heightL_le (cs : List (String × FsTree)) (c : String × FsTree)
    (hc : c ∈ cs) : height c.2 ≤ heightL cs := by
  induction cs with
  | nil => cases hc
  | cons d rest ih =>
    rw [heightL]
    rcases List.mem_cons.mp hc with he | hm
    · rw [he]
      exact le_max_left _ _
    · exact le_trans (ih hm) (le_max_right _ _)

theorem listChildren_models (oracle : String → RemoteListResp) (bucket : String)
    (f : Nat) (path : String)
    (hih : ∀ (mt : Int) (len : Nat) (cs2 : List (String × FsTree)) (p2 sa : String)
      (mk : Option Nat) (pre : List String) (it : List BlobItem),
      Models oracle bucket p2 (.dir mt len cs2) → Wf (.dir mt len cs2) →
      hasSuffixSlash p2 = false → height (.dir mt len cs2) ≤ f →
      ∃ mk2 tr, appendToListResults oracle bucket f p2 true sa mk pre it =
        ⟨pre, it ++ flattenChildren p2 cs2, mk2, none, tr⟩) :
    ∀ (cs : List (String × FsTree)) (mk : Option Nat) (pre : List String)
      (it : List BlobItem),
      (∀ c ∈ cs, Models oracle bucket (childKey path c.1) c.2) →
      (∀ c ∈ cs, c.1 ≠ "" ∧ '/' ∉ c.1.data) →
      (∀ c ∈ cs, Wf c.2) →
      (∀ c ∈ cs, height c.2 ≤ f) →
      ∃ mk2 tr,
        listChildren
          (fun key mk pre it => appendToListResults oracle bucket f key true "" mk pre it)
          path true (statusesOf cs) mk pre it =
          (pre, it ++ flattenChildren path cs, mk2, tr) := by
  intro cs
  induction cs with
  | nil =>
    intro mk pre it _ _ _ _
    exact ⟨mk, [], by simp [listChildren, flattenChildren, statusesOf]⟩
  | cons c rest ih =>
    intro mk pre it hmo hna hwf hht
    have hnc := hna c (List.mem_cons_self c rest)
    cases hc2 : c.2 with
    | file fmt flen =>
      have hst : statusesOf (c :: rest) =
          ⟨c.1, "FILE", fmt, flen⟩ :: statusesOf rest := by
        simp [statusesOf, statusOf, hc2]
      rw [hst, listChildren]
      simp only []
      obtain ⟨mk2, tr, hrest⟩ := ih mk pre
        (it ++ [fileStatus2BlobItem ⟨c.1, "FILE", fmt, flen⟩
          (if path = "" then c.1 else path ++ "/" ++ c.1)])
        (fun d hd => hmo d (List.mem_cons_of_mem c hd))
        (fun d hd => hna d (List.mem_cons_of_mem c hd))
        (fun d hd => hwf d (List.mem_cons_of_mem c hd))
        (fun d hd => hht d (List.mem_cons_of_mem c hd))
      refine ⟨mk2, tr, ?_⟩
      rw [hrest]
      simp [flattenChildren, flattenNode, hc2, childKey, fileStatus2BlobItem]
    | dir dmt dlen dcs =>
      have hst : statusesOf (c :: rest) =
          ⟨c.1, "DIRECTORY", dmt, dlen⟩ :: statusesOf rest := by
        simp [statusesOf, statusOf, hc2]
      rw [hst, listChildren]
      simp only []
      have hkey : (if path = "" then c.1 else path ++ "/" ++ c.1) = childKey path c.1 := by
        rw [childKey]
      rw [hkey]
      have hmc : Models oracle bucket (childKey path c.1) (.dir dmt dlen dcs) := by
        rw [← hc2]
        exact hmo c (List.mem_cons_self c rest)
      have hwc : Wf (.dir dmt dlen dcs) := by
        rw [← hc2]
        exact hwf c (List.mem_cons_self c rest)
      have hhc : height (.dir dmt dlen dcs) ≤ f := by
        rw [← hc2]
        exact hht c (List.mem_cons_self c rest)
      have hsc : hasSuffixSlash (childKey path c.1) = false :=
        hasSuffixSlash_childKey path c.1 hnc.1 hnc.2
      obtain ⟨mkr, trr, hr⟩ := hih dmt dlen dcs (childKey path c.1) "" mk pre
        (it ++ [fileStatus2BlobItem ⟨c.1, "DIRECTORY", dmt, dlen⟩ (childKey path c.1 ++ "/")])
        hmc hwc hsc hhc
      rw [hr]
      simp only []
      obtain ⟨mk2, tr2, hrest⟩ := ih mkr pre
        ((it ++ [fileStatus2BlobItem ⟨c.1, "DIRECTORY", dmt, dlen⟩ (childKey path c.1 ++ "/")]) ++
          flattenChildren (childKey path c.1) dcs)
        (fun d hd => hmo d (List.mem_cons_of_mem c hd))
        (fun d hd => hna d (List.mem_cons_of_mem c hd))
        (fun d hd => hwf d (List.mem_cons_of_mem c hd))
        (fun d hd => hht d (List.mem_cons_of_mem c hd))
      rw [hrest]
      refine ⟨mk2, trr ++ tr2, ?_⟩
      simp [flattenChildren, flattenNode, hc2, fileStatus2BlobItem]

theorem appendGo_models (oracle : String → RemoteListResp) (bucket : String) :
    ∀ (fuel : Nat) (mt : Int) (len : Nat) (cs : List (String × FsTree))
      (path sa : String) (mk : Option Nat) (pre : List String) (it : List BlobItem),
      Models oracle bucket path (.dir mt len cs) →
      Wf (.dir mt len cs) →
      hasSuffixSlash path = false →
      height (.dir mt len cs) ≤ fuel →
      ∃ mk2 tr,
        appendToListResults oracle bucket fuel path true sa mk pre it =
          ⟨pre, it ++ flattenChildren path cs, mk2, none, tr⟩ := by
  intro fuel
  induction fuel with
  | zero =>
    intro mt len cs path sa mk pre it _ _ _ hh
    simp [height] at hh
  | succ f ihf =>
    intro mt len cs path sa mk pre it hm hw hsl hh
    cases hm with
    | dir p2 mt2 len2 cs2 horacle hchildren =>
      cases hw with
      | dir mt3 len3 cs3 hn hwc =>
        have htrim : trimRightSlash path = path := trimRightSlash_no_trailing path hsl
        rw [htrim] at hchildren
        have hcl : mapADLv1Error (some ⟨200, none⟩) false false = none := by decide
        have hfc : ¬ (path ≠ "" ∧ (statusesOf cs).length = 1 ∧
            (statusesOf cs).headI.pathSuffix = "") := by
          rintro ⟨hp, hlen, hhead⟩
          have hlen2 : cs.length = 1 := by
            rw [statusesOf, List.length_map] at hlen
            exact hlen
          obtain ⟨c, hc⟩ := List.length_eq_one.mp hlen2
          rw [hc] at hhead
          have : (statusesOf [c]).headI.pathSuffix = c.1 := by
            simp [statusesOf, statusOf_pathSuffix]
          rw [this] at hhead
          exact (hn c (by rw [hc]; exact List.mem_cons_self c [])).1 hhead
        have hht : ∀ c ∈ cs, height c.2 ≤ f := by
          intro c hcm
          have h1 := heightL_le cs c hcm
          simp [height] at hh
          omega
        obtain ⟨mk2, tr, hloop⟩ := listChildren_models oracle bucket f path
          (fun mt2 len2 cs2 p2 sa2 mk3 pre3 it3 => ihf mt2 len2 cs2 p2 sa2 mk3 pre3 it3)
          cs (mk.map (fun m => u32sub m (statusesOf cs).length)) pre it
          hchildren hn hwc hht
        refine ⟨mk2, pathMap bucket path :: tr, ?_⟩
        simp only [appendToListResults, horacle]
        rw [if_neg hfc]
        simp only [hcl, htrim, not_true, false_and, and_false, if_false]
        rw [hloop]

/-- C6: a recursive (flat, no-delimiter) listing over a remote state
that is a directory tree returns, for every directory encountered during
the traversal, exactly one item row — its own placeholder key with a
trailing delimiter — in addition to the rows of its children (the items
are exactly the flattening of the tree, where a file at key `k` is the
single row `k` and a directory at key `k` is the row `k ++ "/"` followed
by its children's rows), and the returned prefixes list is empty. -/
theorem recursive_listing_flatten (oracle : String → RemoteListResp)
    (bucket : String) (mt : Int) (len : Nat) (cs : List (String × FsTree))
    (fuel : Nat) (mk : Option Nat)
    (hm : Models oracle bucket "" (.dir mt len cs))
    (hw : Wf (.dir mt len cs))
    (hh : height (.dir mt len cs) ≤ fuel) :
    ∃ tr, ListBlobs oracle bucket fuel ⟨none, none, mk, none, none⟩ =
      (.ok ⟨[], flattenChildren "" cs, false⟩, tr) := by
  obtain ⟨mk2, tr, happ⟩ := appendGo_models oracle bucket fuel mt len cs "" "" mk [] []
    hm hw rfl hh
  refine ⟨tr, ?_⟩
  rw [ListBlobs]
  simp only [nilStr, Option.isNone_none]
  rw [happ]
  simp

/-- A remote state matching the tree
`{a (file), b/ {c (file)}}` at the root. -/
def treeOracleEx : String → RemoteListResp := fun p =>
  if p = "" then
    ⟨some ⟨200, none⟩, false,
      [⟨"a", "FILE", 10, 1⟩, ⟨"b", "DIRECTORY", 20, 0⟩]⟩
  else if p = "a" then ⟨some ⟨200, none⟩, false, [⟨"", "FILE", 10, 1⟩]⟩
  else if p = "b" then ⟨some ⟨200, none⟩, false, [⟨"c", "FILE", 30, 3⟩]⟩
  else if p = "b/c" then ⟨some ⟨200, none⟩, false, [⟨"", "FILE", 30, 3⟩]⟩
  else ⟨some ⟨404, none⟩, false, []⟩

/-- The example tree for the C6 witness. -/
def treeEx : List (String × FsTree) :=
  [("a", FsTree.file 10 1), ("b", FsTree.dir 20 0 [("c", FsTree.file 30 3)])]

/-- Witness for C6: the example tree flattens to
`[a, b/, b/c]` with no prefixes. -/
theorem recursive_listing_flatten_witness :
    ∃ tr, ListBlobs treeOracleEx "" 5 ⟨none, none, none, none, none⟩ =
      (.ok ⟨[], flattenChildren "" treeEx, false⟩, tr) :=
  recursive_listing_flatten treeOracleEx "" 0 0 treeEx 5 none
    (by
      refine Models.dir "" 0 0 treeEx (by decide) ?_
      intro c hc
      fin_cases hc
      · exact Models.file _ 10 1 (by decide)
      · refine Models.dir _ 20 0 _ (by decide) ?_
        intro d hd
        fin_cases hd
        exact Models.file _ 30 3 (by decide))
    (by
      refine Wf.dir 0 0 treeEx (by decide) ?_
      intro c hc
      fin_cases hc
      · exact Wf.file 10 1
      · refine Wf.dir 20 0 _ (by decide) ?_
        intro d hd
        fin_cases hd
        exact Wf.file 30 3)
    (by simp [treeEx, height, heightL])

end ADL
